import Mathlib

/-! Verification of the quiz-bot session state machine.

Shallow embedding of the per-user quiz session logic of `quiz-bot.py`:
the session record stored in `context.user_data`, the handlers
`start_quiz`, `send_next_question_batch`, `handle_answer`, `handle_next`,
and the event routing of the surrounding `ConversationHandler`.

Python lists indexed by arbitrary `int` values are modelled by `pyGet`
(negative indices wrap, as in Python); Python sets of ints become
`Finset ℤ`; the per-question `correct_{qid}` flags in `user_data` become
the field `correctly_answered : Finset ℤ`; `context.user_data.clear()`
yields `Session.empty` (every later `.get(key, default)` then reads the
default).  Messages sent to the chat are abstracted into `Directive`
values, keeping exactly the data the specification talks about.
-/

namespace QuizBot

/-- A parsed question record: `{'question': ..., 'options': [...], 'correct': ...}`. -/
structure Question where
  question : String
  options : List String
  correct : String
deriving DecidableEq, Repr

/-- The option-format test reapplied in `send_next_question_batch`
(line 313): `isinstance(opt, str) and len(opt) > 2 and opt[1] == ')'`. -/
def validOption (opt : String) : Bool :=
  decide (2 < opt.length) && (opt.data.get? 1 == some ')')

/-- A question has at least one option passing `validOption`
(`valid_options` nonempty in `send_next_question_batch`). -/
def hasValidOptions (q : Question) : Bool :=
  !(q.options.filter validOption).isEmpty

/-- The per-user session state held in `context.user_data`. -/
structure Session where
  subject : String
  questions : List Question
  /-- `user_data['index']`: index of the first not-yet-sent question. -/
  index : ℕ
  /-- `user_data['score']`. -/
  score : ℕ
  /-- `user_data['answered_in_batch']`, a Python set of ints. -/
  answered_in_batch : Finset ℤ
  /-- `user_data['current_batch_indices']`, `list(range(start, end))`. -/
  current_batch_indices : List ℤ
  /-- The set of `qid` with `user_data[f"correct_{qid}"] = True`. -/
  correctly_answered : Finset ℤ
deriving DecidableEq

/-- The state after `context.user_data.clear()`: every `.get(k, d)` returns
its default. -/
def Session.empty : Session :=
  { subject := ""
    questions := []
    index := 0
    score := 0
    answered_in_batch := ∅
    current_batch_indices := []
    correctly_answered := ∅ }

/-- Python list indexing `xs[i]` for `i : int`: nonnegative indices read
directly, negative indices wrap around once; out-of-bounds gives `none`
(an `IndexError` in Python). -/
def pyGet {α : Type} (xs : List α) (i : ℤ) : Option α :=
  if 0 ≤ i then xs.get? i.toNat
  else if 0 ≤ (xs.length : ℤ) + i then xs.get? ((xs.length : ℤ) + i).toNat
  else none

/-- The observable effects a handler produces, abstracted from the chat
messages it sends. -/
inductive Directive where
  /-- The batch of question messages sent by `send_next_question_batch`
  (global indices), with `hasMore` = whether a later batch exists. -/
  | sendBatch (indices : List ℤ) (hasMore : Bool)
  /-- The "keyingi test" next-batch prompt message. -/
  | nextPrompt
  /-- The edited feedback message of `handle_answer` (correctness flag and
  the answered question's global index). -/
  | sendFeedback (correct : Bool) (qid : ℤ)
  /-- The "Test tugadi! ... {score}/{total}" completion message. -/
  | sendCompletion (score : ℕ) (total : ℕ)
  /-- The "Iltimos qolgan {remaining} savollarga javob bering!" refusal in
  `handle_next`. -/
  | batchIncomplete (remaining : ℕ)
  /-- The "Barcha savollarga javob berdingiz!" already-finished message. -/
  | alreadyFinished
  /-- The "savollar topilmadi" failure when no questions are prepared. -/
  | noQuestions
  /-- The "Uzr, savollarni yuklashda xatolik." rejection in `handle_answer`
  (invalid questions / question id). -/
  | unknownQuestion
  /-- An uncaught `IndexError` from `questions[qid]` (reaches the global
  error handler; the conversation state is left as it was). -/
  | indexError
deriving DecidableEq, Repr

/-- Conversation states of the `ConversationHandler`: `SELECTING_SUBJECT`,
`QUIZ_IN_PROGRESS`, and `ConversationHandler.END`. -/
inductive ConvState where
  | selectingSubject
  | quizInProgress
  | ended
deriving DecidableEq, Repr

/-- Result of one handler invocation: the session left in `user_data`, the
conversation state returned, and the directives emitted. -/
structure StepResult where
  sess : Session
  conv : ConvState
  out : List Directive
deriving DecidableEq

/-- Batch size: `QUESTIONS_PER_BATCH = 10`. -/
def QUESTIONS_PER_BATCH : ℕ := 10

/-- Whether `send_next_question_batch` skips question `i` (lines 313-319):
it does iff the question exists but none of its options passes the format
test; a skipped question's index is added to `answered_in_batch`. -/
def skipQuestion (qs : List Question) (i : ℕ) : Bool :=
  match qs.get? i with
  | some q => !hasValidOptions q
  | none => false

/-- Embedding of `send_next_question_batch` (lines 273-359).  Sends the slice
`questions[index : min(index+10, len)]`, records its global indices in
`current_batch_indices`, resets `answered_in_batch` to the indices of
batch questions with no valid options (those are skipped and marked
answered, line 318), advances `index`, and shows the next-batch prompt
iff more questions remain. -/
def sendNextQuestionBatch (s : Session) : StepResult :=
  let total := s.questions.length
  if total ≤ s.index then
    { sess := s, conv := .selectingSubject, out := [.alreadyFinished] }
  else if s.questions.isEmpty then
    { sess := Session.empty, conv := .ended, out := [.noQuestions] }
  else
    let endIndex := min (s.index + QUESTIONS_PER_BATCH) total
    let batch := List.range' s.index (endIndex - s.index)
    let skipped := batch.filter (skipQuestion s.questions)
    let sess' := { s with
      current_batch_indices := batch.map (Nat.cast : ℕ → ℤ)
      answered_in_batch := (skipped.map (Nat.cast : ℕ → ℤ)).toFinset
      index := endIndex }
    { sess := sess'
      conv := .quizInProgress
      out := .sendBatch (batch.map (Nat.cast : ℕ → ℤ)) (decide (endIndex < total)) ::
        (if endIndex < total then [.nextPrompt] else []) }

/-- Embedding of `handle_answer` (lines 362-482) for a callback `ans|{qid}|{letter}`.
Rejects (clearing `user_data`) when the question list is empty or
`qid >= len(questions)`; otherwise records the answer in the current
batch, scores it idempotently via the `correct_{qid}` flag, emits
feedback, and fires the completion check. -/
def handleAnswer (s : Session) (qid : ℤ) (letter : String) : StepResult :=
  let total := s.questions.length
  if s.questions.isEmpty || decide ((total : ℤ) ≤ qid) then
    { sess := Session.empty, conv := .ended, out := [.unknownQuestion] }
  else
    -- Batch tracking happens before `questions[qid]` is evaluated, and the
    -- `set.add` mutation survives an IndexError.
    let answered' :=
      if qid ∈ s.current_batch_indices then insert qid s.answered_in_batch
      else s.answered_in_batch
    match pyGet s.questions qid with
    | none =>
        { sess := { s with answered_in_batch := answered' }
          conv := .quizInProgress
          out := [.indexError] }
    | some qData =>
        let isCorrect := letter = qData.correct
        let scored :=
          if isCorrect ∧ qid ∉ s.correctly_answered then
            (s.score + 1, insert qid s.correctly_answered)
          else
            (s.score, s.correctly_answered)
        let sess' := { s with
          answered_in_batch := answered'
          score := scored.1
          correctly_answered := scored.2 }
        let isLastBatch := ((total : ℤ) - 1) ∈ s.current_batch_indices
        let allAnswered := s.current_batch_indices.length ≤ answered'.card
        if isLastBatch ∧ allAnswered then
          { sess := sess'
            conv := .selectingSubject
            out := [.sendFeedback (decide isCorrect) qid,
                    .sendCompletion scored.1 total] }
        else
          { sess := sess'
            conv := .quizInProgress
            out := [.sendFeedback (decide isCorrect) qid] }

/-- Embedding of `handle_next` (lines 485-515): gate on
`len(answered_in_batch) >= len(current_batch_indices)`, then either send
the next batch or refuse with the remaining count. -/
def handleNext (s : Session) : StepResult :=
  if s.current_batch_indices.length ≤ s.answered_in_batch.card then
    sendNextQuestionBatch s
  else
    { sess := s
      conv := .quizInProgress
      out := [.batchIncomplete
        (s.current_batch_indices.length - s.answered_in_batch.card)] }

/-- Embedding of `start_quiz` (lines 197-271) once the subject's (or random mix's)
question sequence `qs` has been resolved and shuffled: `user_data` is
cleared, the fresh session is installed, the first batch is sent, and
`QUIZ_IN_PROGRESS` is returned (the return value of
`send_next_question_batch` is discarded there). -/
def startQuiz (subject : String) (qs : List Question) : StepResult :=
  if qs.isEmpty then
    { sess := Session.empty, conv := .ended, out := [.noQuestions] }
  else
    let s : Session :=
      { subject := subject
        questions := qs
        index := 0
        score := 0
        answered_in_batch := ∅
        current_batch_indices := []
        correctly_answered := ∅ }
    let r := sendNextQuestionBatch s
    { r with conv := .quizInProgress }

/-- The three user events the core reacts to.  `selectSubject` carries the
resolved, shuffled question sequence (the shuffle is nondeterministic, so
it is a parameter of the event). -/
inductive Event where
  | selectSubject (subject : String) (qs : List Question)
  | submitAnswer (qid : ℤ) (letter : String)
  | requestNext
deriving DecidableEq

/-- One conversation: its `ConversationHandler` state plus `user_data`. -/
structure MState where
  conv : ConvState
  sess : Session
deriving DecidableEq

/-- Event routing of the `ConversationHandler` (lines 589-603): in
`SELECTING_SUBJECT` only subject selection is handled; in
`QUIZ_IN_PROGRESS` only `ans|...` and `next`; everything else is ignored
(no handler matches, so neither state nor `user_data` changes). -/
def step (m : MState) (e : Event) : MState × List Directive :=
  match m.conv, e with
  | .selectingSubject, .selectSubject subject qs =>
      let r := startQuiz subject qs
      (⟨r.conv, r.sess⟩, r.out)
  | .quizInProgress, .submitAnswer qid letter =>
      let r := handleAnswer m.sess qid letter
      (⟨r.conv, r.sess⟩, r.out)
  | .quizInProgress, .requestNext =>
      let r := handleNext m.sess
      (⟨r.conv, r.sess⟩, r.out)
  | _, _ => (m, [])

/-- The state right after `/start`: `user_data` cleared, state
`SELECTING_SUBJECT`. -/
def initState : MState := ⟨.selectingSubject, Session.empty⟩

/-- Run a sequence of events from a state. -/
def runEvents (m : MState) : List Event → MState
  | [] => m
  | e :: es => runEvents (step m e).1 es

/-- Session state after `k` repeated `handle_answer(qid, letter)` calls. -/
def iterSubmit (qid : ℤ) (letter : String) : ℕ → Session → Session
  | 0, s => s
  | k + 1, s => iterSubmit qid letter k (handleAnswer s qid letter).sess

/-! The "random" selection of `start_quiz` (lines 224-248).

Only the drawn counts matter for the spec's claims: `random.sample(qs, k)`
always returns exactly `k` elements of `qs` (given `k ≤ len(qs)`, which
the code ensures with `min`), so the length of the produced sequence is a
deterministic function of the per-subject sizes.  Python's `round` on
`target_total * proportion` rounds half to even; we model it on the exact
value `target_total * n / total_available`, written as the fraction
`(target_total * n) / total_available` over integer arithmetic so that
concrete instances evaluate in the kernel. -/

/-- Python's `round` to the nearest integer, ties to even, applied to the
exact nonnegative fraction `num / den`. -/
def roundHalfEven (num den : ℕ) : ℕ :=
  if 2 * (num % den) < den then num / den
  else if den < 2 * (num % den) then num / den + 1
  else if num / den % 2 = 0 then num / den
  else num / den + 1

/-- Line 234: `target_total = min(50, total_available)`. -/
def targetTotal (totalAvailable : ℕ) : ℕ := min 50 totalAvailable

/-- Lines 239-240: `count = max(1, round(target_total * proportion)) if total_available > 0
else min(10, len(subj_questions))` with
`proportion = len(subj_questions) / total_available` (lines 239-240). -/
def proportionalCount (target totalAvailable n : ℕ) : ℕ :=
  if 0 < totalAvailable then
    max 1 (roundHalfEven (target * n) totalAvailable)
  else
    min 10 n

/-- Line 242: `actual_count = min(count, len(subj_questions))`. -/
def actualCount (target totalAvailable n : ℕ) : ℕ :=
  min (proportionalCount target totalAvailable n) n

/-- Number of questions the random mix draws from a subject with `n`
questions (empty subjects are skipped by the `continue`, line 237). -/
def drawnFromSubject (sizes : List ℕ) (n : ℕ) : ℕ :=
  if n = 0 then 0 else actualCount (targetTotal sizes.sum) sizes.sum n

/-- Length of `questions_to_ask` produced by the "random" branch, as a
function of the non-empty subjects' sizes (`temp_list` accumulates
`actual_count` sampled questions per non-empty subject). -/
def randomMixLength (sizes : List ℕ) : ℕ :=
  (sizes.map (drawnFromSubject sizes)).sum

/-! Concrete data for witnesses. -/

/-- A well-formed question whose correct answer is `A`. -/
def q1 : Question :=
  { question := "1+1?", options := ["A) 2", "B) 3", "C) 4", "D) 5"], correct := "A" }

/-- A well-formed question whose correct answer is `B`. -/
def q2 : Question :=
  { question := "2+2?", options := ["A) 3", "B) 4", "C) 5", "D) 6"], correct := "B" }

/-- A two-question session right after its (single) batch was sent. -/
def exSession : Session := (startQuiz "Math" [q1, q2]).sess

/-- A twelve-question session right after its first batch of ten was sent. -/
def exSession12 : Session := (startQuiz "Math" (List.replicate 12 q1)).sess

/-- The twelve-question session with its first batch fully answered. -/
def exSession12Done : Session :=
  { exSession12 with
    answered_in_batch := exSession12.current_batch_indices.toFinset }

/-! Helper lemmas. -/

theorem pyGet_nil {α : Type} (i : ℤ) : pyGet ([] : List α) i = none := by
  unfold pyGet
  split <;> simp

theorem pyGet_ne_nil {α : Type} {xs : List α} {i : ℤ} {a : α}
    (h : pyGet xs i = some a) : xs ≠ [] := by
  rintro rfl
  rw [pyGet_nil] at h
  exact Option.noConfusion h

theorem pyGet_of_nonneg {α : Type} {xs : List α} {i : ℤ} (h : 0 ≤ i) :
    pyGet xs i = xs.get? i.toNat := by
  unfold pyGet
  rw [if_pos h]

theorem pyGet_of_neg {α : Type} {xs : List α} {i : ℤ} (hneg : i < 0)
    (hlo : 0 ≤ (xs.length : ℤ) + i) :
    pyGet xs i = xs.get? ((xs.length : ℤ) + i).toNat := by
  unfold pyGet
  rw [if_neg (not_le.mpr hneg), if_pos hlo]

theorem pyGet_isSome_of_neg {α : Type} {xs : List α} {i : ℤ} (hneg : i < 0)
    (hlo : -(xs.length : ℤ) ≤ i) : ∃ a, pyGet xs i = some a := by
  have hlo' : 0 ≤ (xs.length : ℤ) + i := by omega
  rw [pyGet_of_neg hneg hlo']
  have hlt : ((xs.length : ℤ) + i).toNat < xs.length := by omega
  exact ⟨_, List.get?_eq_get hlt⟩

theorem lt_length_of_pyGet_nonneg {α : Type} {xs : List α} {i : ℤ} {a : α}
    (h0 : 0 ≤ i) (h : pyGet xs i = some a) : i < (xs.length : ℤ) := by
  rw [pyGet_of_nonneg h0] at h
  obtain ⟨hlt, -⟩ := List.get?_eq_some.mp h
  omega

/-- The set `answered_in_batch` after the tracking block of `handle_answer`
(lines 390-401): the id is added exactly when it belongs to the current
batch (`set.add` is idempotent, so re-adding changes nothing). -/
def trackAnswer (s : Session) (qid : ℤ) : Finset ℤ :=
  if qid ∈ s.current_batch_indices then insert qid s.answered_in_batch
  else s.answered_in_batch

/-- Normal-path unfolding of `handleAnswer`: when the question list is
nonempty, `qid < len(questions)` and `questions[qid]` resolves, the handler
runs the tracking, scoring and completion logic spelled out here. -/
theorem handleAnswer_eq_of_pyGet (s : Session) (qid : ℤ) (letter : String)
    (qd : Question) (hget : pyGet s.questions qid = some qd)
    (hq : qid < (s.questions.length : ℤ)) :
    handleAnswer s qid letter =
      (let scored :=
        if letter = qd.correct ∧ qid ∉ s.correctly_answered then
          (s.score + 1, insert qid s.correctly_answered)
        else (s.score, s.correctly_answered)
      let sess' := { s with
        answered_in_batch := trackAnswer s qid
        score := scored.1
        correctly_answered := scored.2 }
      if ((s.questions.length : ℤ) - 1) ∈ s.current_batch_indices ∧
          s.current_batch_indices.length ≤ (trackAnswer s qid).card then
        { sess := sess', conv := .selectingSubject,
          out := [.sendFeedback (decide (letter = qd.correct)) qid,
                  .sendCompletion scored.1 s.questions.length] }
      else
        { sess := sess', conv := .quizInProgress,
          out := [.sendFeedback (decide (letter = qd.correct)) qid] }) := by
  have hne : s.questions ≠ [] := pyGet_ne_nil hget
  have hguard : (s.questions.isEmpty || decide ((s.questions.length : ℤ) ≤ qid)) = false := by
    simp [List.isEmpty_iff, hne, not_le.mpr hq]
  unfold handleAnswer
  dsimp only
  rw [hguard, hget]
  rfl

/-- Field-by-field description of the session left by a normal-path
`handle_answer` call. -/
theorem handleAnswer_sess_fields (s : Session) (qid : ℤ) (letter : String)
    (qd : Question) (hget : pyGet s.questions qid = some qd)
    (hq : qid < (s.questions.length : ℤ)) :
    (handleAnswer s qid letter).sess.questions = s.questions ∧
    (handleAnswer s qid letter).sess.index = s.index ∧
    (handleAnswer s qid letter).sess.current_batch_indices =
      s.current_batch_indices ∧
    (handleAnswer s qid letter).sess.answered_in_batch = trackAnswer s qid ∧
    (handleAnswer s qid letter).sess.score =
      (if letter = qd.correct ∧ qid ∉ s.correctly_answered then s.score + 1
       else s.score) ∧
    (handleAnswer s qid letter).sess.correctly_answered =
      (if letter = qd.correct ∧ qid ∉ s.correctly_answered then
        insert qid s.correctly_answered
       else s.correctly_answered) := by
  rw [handleAnswer_eq_of_pyGet s qid letter qd hget hq]
  dsimp only
  by_cases hc : letter = qd.correct ∧ qid ∉ s.correctly_answered
  · simp only [if_pos hc]
    split <;> simp
  · simp only [if_neg hc]
    split <;> simp

/-- A normal-path `handle_answer` call fires the completion message and
moves to subject selection exactly when the code's condition — last
question's index in the current batch, and at least as many answers
recorded as batch members — holds after this answer is tracked. -/
theorem handleAnswer_completes_iff (s : Session) (qid : ℤ) (letter : String)
    (qd : Question) (hget : pyGet s.questions qid = some qd)
    (hq : qid < (s.questions.length : ℤ)) :
    ((handleAnswer s qid letter).conv = ConvState.selectingSubject ∧
        Directive.sendCompletion (handleAnswer s qid letter).sess.score
          s.questions.length ∈ (handleAnswer s qid letter).out)
      ↔ (((s.questions.length : ℤ) - 1) ∈ s.current_batch_indices ∧
          s.current_batch_indices.length ≤ (trackAnswer s qid).card) := by
  rw [handleAnswer_eq_of_pyGet s qid letter qd hget hq]
  dsimp only
  split
  next hcond => simp [hcond]
  next hcond => simp [hcond]

/-- A normal-path `handle_answer` call always emits its feedback edit. -/
theorem handleAnswer_feedback_mem (s : Session) (qid : ℤ) (letter : String)
    (qd : Question) (hget : pyGet s.questions qid = some qd)
    (hq : qid < (s.questions.length : ℤ)) :
    Directive.sendFeedback (decide (letter = qd.correct)) qid ∈
      (handleAnswer s qid letter).out := by
  rw [handleAnswer_eq_of_pyGet s qid letter qd hget hq]
  dsimp only
  split <;> simp

/-- Once `correct_{qid}` is set, any further `handle_answer(qid, letter)`
calls leave the score untouched. -/
theorem iterSubmit_stable (qid : ℤ) (letter : String) (qd : Question) (k : ℕ) :
    ∀ s : Session, pyGet s.questions qid = some qd →
      qid < (s.questions.length : ℤ) → qid ∈ s.correctly_answered →
      (iterSubmit qid letter k s).score = s.score := by
  induction k with
  | zero => intro s _ _ _; rfl
  | succ k ih =>
      intro s hget hq hmem
      obtain ⟨hqs, -, -, -, hsc, hca⟩ :=
        handleAnswer_sess_fields s qid letter qd hget hq
      have hcond : ¬(letter = qd.correct ∧ qid ∉ s.correctly_answered) :=
        fun h => h.2 hmem
      rw [iterSubmit, ih _ (by rw [hqs]; exact hget) (by rw [hqs]; exact hq)
        (by rw [hca, if_neg hcond]; exact hmem), hsc, if_neg hcond]

/-- C1 (confirmed): for every active session and every question index
`qid` with a resolvable question, any sequence of `k ≥ 1` repeated
`SubmitAnswer(qid, correctLetter)` calls with the question's correct letter
increases the session's score by exactly 1 in total, however large `k`. -/
theorem idempotent_scoring (s : Session) (qid : ℤ) (letter : String)
    (qd : Question) (hget : pyGet s.questions qid = some qd)
    (hq : qid < (s.questions.length : ℤ))
    (hletter : letter = qd.correct) (hnew : qid ∉ s.correctly_answered)
    (k : ℕ) (hk : 1 ≤ k) :
    (iterSubmit qid letter k s).score = s.score + 1 := by
  obtain ⟨j, rfl⟩ : ∃ j, k = j + 1 := ⟨k - 1, by omega⟩
  obtain ⟨hqs, -, -, -, hsc, hca⟩ :=
    handleAnswer_sess_fields s qid letter qd hget hq
  have hcond : letter = qd.correct ∧ qid ∉ s.correctly_answered :=
    ⟨hletter, hnew⟩
  rw [iterSubmit, iterSubmit_stable qid letter qd j _ (by rw [hqs]; exact hget)
    (by rw [hqs]; exact hq)
    (by rw [hca, if_pos hcond]; exact Finset.mem_insert_self qid _),
    hsc, if_pos hcond]

/-- Witness for `idempotent_scoring`: submitting the correct answer to
question 0 of the concrete two-question session three times raises the
score by exactly 1. -/
theorem idempotent_scoring_witness :
    (iterSubmit 0 "A" 3 exSession).score = exSession.score + 1 :=
  idempotent_scoring exSession 0 "A" q1 (by decide) (by decide) (by decide)
    (by decide) 3 (by decide)

/-- Rejection path of `handle_answer`: empty question list or
`qid >= len(questions)` clears `user_data` and ends the conversation. -/
theorem handleAnswer_eq_of_invalid (s : Session) (qid : ℤ) (letter : String)
    (h : s.questions = [] ∨ (s.questions.length : ℤ) ≤ qid) :
    handleAnswer s qid letter =
      { sess := Session.empty, conv := ConvState.ended,
        out := [Directive.unknownQuestion] } := by
  have hguard : (s.questions.isEmpty ||
      decide ((s.questions.length : ℤ) ≤ qid)) = true := by
    rcases h with h | h <;> simp [List.isEmpty_iff, h]
  unfold handleAnswer
  dsimp only
  rw [hguard]
  rfl

/-- IndexError path of `handle_answer`: `qid < -len(questions)` raises in
`questions[qid]` after the batch-tracking mutation; the conversation state
is left as it was. -/
theorem handleAnswer_eq_of_pyGet_none (s : Session) (qid : ℤ) (letter : String)
    (hne : s.questions ≠ []) (hq : qid < (s.questions.length : ℤ))
    (hget : pyGet s.questions qid = none) :
    handleAnswer s qid letter =
      { sess := { s with answered_in_batch := trackAnswer s qid },
        conv := ConvState.quizInProgress, out := [Directive.indexError] } := by
  have hguard : (s.questions.isEmpty ||
      decide ((s.questions.length : ℤ) ≤ qid)) = false := by
    simp [List.isEmpty_iff, hne, not_le.mpr hq]
  unfold handleAnswer
  dsimp only
  rw [hguard, hget]
  rfl

/-- Tracking an answer never leaves the current batch. -/
theorem trackAnswer_subset (s : Session) (qid : ℤ)
    (hsub : ∀ i ∈ s.answered_in_batch, i ∈ s.current_batch_indices) :
    ∀ i ∈ trackAnswer s qid, i ∈ s.current_batch_indices := by
  intro i hi
  unfold trackAnswer at hi
  split at hi
  next hmem =>
    rcases Finset.mem_insert.mp hi with rfl | hi'
    · exact hmem
    · exact hsub i hi'
  next => exact hsub i hi

/-- For a duplicate-free batch list and a recorded-answers set contained in
it, the code's cardinality test `len(batch) <= len(answered)` is the same
as "every batch member is answered". -/
theorem length_le_card_iff {cbi : List ℤ} {A : Finset ℤ}
    (hsub : ∀ i ∈ A, i ∈ cbi) (hnodup : cbi.Nodup) :
    cbi.length ≤ A.card ↔ ∀ i ∈ cbi, i ∈ A := by
  have hA : A ⊆ cbi.toFinset := fun i hi => List.mem_toFinset.mpr (hsub i hi)
  have hlen : cbi.toFinset.card = cbi.length :=
    List.toFinset_card_of_nodup hnodup
  constructor
  · intro hle i hi
    have heq : A = cbi.toFinset :=
      Finset.eq_of_subset_of_card_le hA (by omega)
    rw [heq]
    exact List.mem_toFinset.mpr hi
  · intro hall
    have hBA : cbi.toFinset ⊆ A := fun i hi => hall i (List.mem_toFinset.mp hi)
    have := Finset.card_le_card hBA
    omega

/-- Non-finished path of `send_next_question_batch`: with questions left to
send, the next slice of at most ten questions becomes the current batch. -/
theorem sendNext_eq_of_not_finished (s : Session)
    (h : s.index < s.questions.length) :
    sendNextQuestionBatch s =
      (let endIndex := min (s.index + QUESTIONS_PER_BATCH) s.questions.length
      let batch := List.range' s.index (endIndex - s.index)
      let skipped := batch.filter (skipQuestion s.questions)
      { sess := { s with
          current_batch_indices := batch.map (Nat.cast : ℕ → ℤ)
          answered_in_batch := (skipped.map (Nat.cast : ℕ → ℤ)).toFinset
          index := endIndex }
        conv := ConvState.quizInProgress
        out := Directive.sendBatch (batch.map (Nat.cast : ℕ → ℤ))
            (decide (endIndex < s.questions.length)) ::
          (if endIndex < s.questions.length then [Directive.nextPrompt]
           else []) }) := by
  have h1 : ¬ s.questions.length ≤ s.index := not_le.mpr h
  have h2 : ¬ s.questions.isEmpty = true := by
    rw [List.isEmpty_iff]
    intro he
    rw [he] at h
    exact absurd h (by simp)
  unfold sendNextQuestionBatch
  dsimp only
  rw [if_neg h1, if_neg h2]

/-- C2 (confirmed): a `SubmitAnswer` step emits
`SendCompletion(score, total = len(questions))` and moves to
`SelectingSubject` exactly when, after this answer is recorded, the batch
containing the last question is current and every batch member is
answered; and once in `SelectingSubject` no further `SubmitAnswer` event is
routed to the handler, so the completion fires exactly once per session —
never before the condition holds and never skipped once it holds. -/
theorem completion_detection (s : Session) (qid : ℤ) (letter : String)
    (qd : Question) (hget : pyGet s.questions qid = some qd)
    (hq : qid < (s.questions.length : ℤ))
    (hsub : ∀ i ∈ s.answered_in_batch, i ∈ s.current_batch_indices)
    (hnodup : s.current_batch_indices.Nodup) :
    (((handleAnswer s qid letter).conv = ConvState.selectingSubject ∧
        Directive.sendCompletion (handleAnswer s qid letter).sess.score
          s.questions.length ∈ (handleAnswer s qid letter).out)
      ↔ (((s.questions.length : ℤ) - 1) ∈
            (handleAnswer s qid letter).sess.current_batch_indices ∧
          ∀ i ∈ (handleAnswer s qid letter).sess.current_batch_indices,
            i ∈ (handleAnswer s qid letter).sess.answered_in_batch)) ∧
    (∀ (m : MState) (qid' : ℤ) (letter' : String),
        m.conv = ConvState.selectingSubject →
        step m (Event.submitAnswer qid' letter') = (m, [])) := by
  constructor
  · obtain ⟨-, -, hcbi, haib, -, -⟩ :=
      handleAnswer_sess_fields s qid letter qd hget hq
    rw [hcbi, haib, handleAnswer_completes_iff s qid letter qd hget hq]
    exact and_congr_right fun _ =>
      length_le_card_iff (trackAnswer_subset s qid hsub) hnodup
  · rintro ⟨conv, sess⟩ qid' letter' hconv
    dsimp only at hconv
    subst hconv
    rfl

/-- Witness for `completion_detection` at the two-question session and a
correct answer to question 0. -/
theorem completion_detection_witness :
    (((handleAnswer exSession 0 "A").conv = ConvState.selectingSubject ∧
        Directive.sendCompletion (handleAnswer exSession 0 "A").sess.score
          exSession.questions.length ∈ (handleAnswer exSession 0 "A").out)
      ↔ (((exSession.questions.length : ℤ) - 1) ∈
            (handleAnswer exSession 0 "A").sess.current_batch_indices ∧
          ∀ i ∈ (handleAnswer exSession 0 "A").sess.current_batch_indices,
            i ∈ (handleAnswer exSession 0 "A").sess.answered_in_batch)) ∧
    (∀ (m : MState) (qid' : ℤ) (letter' : String),
        m.conv = ConvState.selectingSubject →
        step m (Event.submitAnswer qid' letter') = (m, [])) :=
  completion_detection exSession 0 "A" q1 (by decide) (by decide) (by decide)
    (by decide)

/-- C3 (confirmed): in `QuizInProgress`, `RequestNextBatch` fails with
`BatchIncomplete` — whose count equals the number of unanswered batch
questions — and changes nothing whenever `answeredInBatch` is a strict
subset of the current batch; and whenever `answeredInBatch` equals the
batch (and questions remain), it advances the cursor and emits the next
batch. -/
theorem batch_gating (s : Session)
    (hsub : ∀ i ∈ s.answered_in_batch, i ∈ s.current_batch_indices)
    (hnodup : s.current_batch_indices.Nodup) :
    (s.answered_in_batch ≠ s.current_batch_indices.toFinset →
      handleNext s =
        { sess := s
          conv := ConvState.quizInProgress
          out := [Directive.batchIncomplete
            (s.current_batch_indices.length - s.answered_in_batch.card)] } ∧
      s.current_batch_indices.length - s.answered_in_batch.card =
        (s.current_batch_indices.toFinset \ s.answered_in_batch).card) ∧
    (s.answered_in_batch = s.current_batch_indices.toFinset →
      s.index < s.questions.length →
      (handleNext s).sess.index =
        min (s.index + QUESTIONS_PER_BATCH) s.questions.length ∧
      s.index < (handleNext s).sess.index ∧
      (handleNext s).conv = ConvState.quizInProgress ∧
      ∃ idx more, Directive.sendBatch idx more ∈ (handleNext s).out) := by
  have hA : s.answered_in_batch ⊆ s.current_batch_indices.toFinset :=
    fun i hi => List.mem_toFinset.mpr (hsub i hi)
  have hlen : s.current_batch_indices.toFinset.card =
      s.current_batch_indices.length := List.toFinset_card_of_nodup hnodup
  constructor
  · intro hne
    have hlt : s.answered_in_batch.card <
        s.current_batch_indices.length := by
      have hssub : s.answered_in_batch ⊂ s.current_batch_indices.toFinset :=
        ⟨hA, fun hBA => hne (Finset.Subset.antisymm hA hBA)⟩
      have := Finset.card_lt_card hssub
      omega
    constructor
    · unfold handleNext
      rw [if_neg (not_le.mpr hlt)]
    · rw [Finset.card_sdiff hA]
      omega
  · intro heq hidx
    have hgate : s.current_batch_indices.length ≤
        s.answered_in_batch.card := by
      rw [heq]
      omega
    have hnext : handleNext s = sendNextQuestionBatch s := by
      unfold handleNext
      rw [if_pos hgate]
    rw [hnext, sendNext_eq_of_not_finished s hidx]
    refine ⟨rfl, ?_, rfl, ?_⟩
    · have : 0 < QUESTIONS_PER_BATCH := by decide
      dsimp only
      omega
    · exact ⟨_, _, List.mem_cons_self _ _⟩

/-- Witness for `batch_gating` at a twelve-question session whose first
batch has been fully answered. -/
theorem batch_gating_witness :
    (exSession12Done.answered_in_batch ≠
        exSession12Done.current_batch_indices.toFinset →
      handleNext exSession12Done =
        { sess := exSession12Done
          conv := ConvState.quizInProgress
          out := [Directive.batchIncomplete
            (exSession12Done.current_batch_indices.length -
              exSession12Done.answered_in_batch.card)] } ∧
      exSession12Done.current_batch_indices.length -
          exSession12Done.answered_in_batch.card =
        (exSession12Done.current_batch_indices.toFinset \
          exSession12Done.answered_in_batch).card) ∧
    (exSession12Done.answered_in_batch =
        exSession12Done.current_batch_indices.toFinset →
      exSession12Done.index < exSession12Done.questions.length →
      (handleNext exSession12Done).sess.index =
        min (exSession12Done.index + QUESTIONS_PER_BATCH)
          exSession12Done.questions.length ∧
      exSession12Done.index < (handleNext exSession12Done).sess.index ∧
      (handleNext exSession12Done).conv = ConvState.quizInProgress ∧
      ∃ idx more, Directive.sendBatch idx more ∈
        (handleNext exSession12Done).out) :=
  batch_gating exSession12Done (by decide) (by decide)

/-- Membership in a batch-index list: the mapped `range'` holds exactly the
integers of `[a, a + n)`. -/
theorem mem_map_range' (a n : ℕ) (i : ℤ) :
    i ∈ (List.range' a n).map (Nat.cast : ℕ → ℤ) ↔
      ((a : ℤ) ≤ i ∧ i < (a : ℤ) + n) := by
  rw [List.mem_map]
  constructor
  · rintro ⟨k, hk, rfl⟩
    rw [List.mem_range'_1] at hk
    omega
  · rintro ⟨h1, h2⟩
    exact ⟨i.toNat, by rw [List.mem_range'_1]; omega, by omega⟩

/-- Questions delivered by the loader always pass the resend format test,
so nothing in a batch is skipped. -/
theorem skipQuestion_eq_false {qs : List Question} {i : ℕ}
    (hi : i < qs.length) (hvalid : ∀ q ∈ qs, hasValidOptions q) :
    skipQuestion qs i = false := by
  unfold skipQuestion
  rw [List.get?_eq_get hi]
  simpa using hvalid _ (List.get_mem qs i hi)

/-- C5 (confirmed): with `cursor = start < len(questions)` (and every
record's options validly formatted, as `load_questions` guarantees),
emitting the next batch sets `end = min(start + 10, len)`, makes
`currentBatch = {start, ..., end-1}`, resets `answeredInBatch` to `∅`,
advances the cursor to `end`, and shows the next-batch prompt iff
`end < len(questions)`. -/
theorem batch_emission (s : Session) (h : s.index < s.questions.length)
    (hvalid : ∀ q ∈ s.questions, hasValidOptions q) :
    (∀ i : ℤ, i ∈ (sendNextQuestionBatch s).sess.current_batch_indices ↔
      ((s.index : ℤ) ≤ i ∧
        i < ((min (s.index + QUESTIONS_PER_BATCH) s.questions.length : ℕ) :
          ℤ))) ∧
    (sendNextQuestionBatch s).sess.answered_in_batch = ∅ ∧
    (sendNextQuestionBatch s).sess.index =
      min (s.index + QUESTIONS_PER_BATCH) s.questions.length ∧
    (sendNextQuestionBatch s).conv = ConvState.quizInProgress ∧
    (Directive.nextPrompt ∈ (sendNextQuestionBatch s).out ↔
      min (s.index + QUESTIONS_PER_BATCH) s.questions.length <
        s.questions.length) := by
  rw [sendNext_eq_of_not_finished s h]
  dsimp only
  have hskip : (List.range' s.index
      (min (s.index + QUESTIONS_PER_BATCH) s.questions.length -
        s.index)).filter (skipQuestion s.questions) = [] := by
    rw [List.filter_eq_nil_iff]
    intro a ha
    rw [List.mem_range'_1] at ha
    have halt : a < s.questions.length := by omega
    simp [skipQuestion_eq_false halt hvalid]
  refine ⟨?_, ?_, rfl, rfl, ?_⟩
  · intro i
    rw [mem_map_range']
    omega
  · rw [hskip]
    rfl
  · by_cases hc : min (s.index + QUESTIONS_PER_BATCH) s.questions.length <
      s.questions.length <;> simp [hc]

/-- Witness for `batch_emission` at the twelve-question session sitting
before its final two-question batch. -/
theorem batch_emission_witness :
    (∀ i : ℤ,
      i ∈ (sendNextQuestionBatch exSession12).sess.current_batch_indices ↔
      ((exSession12.index : ℤ) ≤ i ∧
        i < ((min (exSession12.index + QUESTIONS_PER_BATCH)
          exSession12.questions.length : ℕ) : ℤ))) ∧
    (sendNextQuestionBatch exSession12).sess.answered_in_batch = ∅ ∧
    (sendNextQuestionBatch exSession12).sess.index =
      min (exSession12.index + QUESTIONS_PER_BATCH)
        exSession12.questions.length ∧
    (sendNextQuestionBatch exSession12).conv = ConvState.quizInProgress ∧
    (Directive.nextPrompt ∈ (sendNextQuestionBatch exSession12).out ↔
      min (exSession12.index + QUESTIONS_PER_BATCH)
          exSession12.questions.length <
        exSession12.questions.length) :=
  batch_emission exSession12 (by decide) (by decide)

/-- C6 (confirmed): submitting an incorrect letter never changes the
score, and never removes a question from the correctly-answered record —
a point once earned is kept even if the same question is later answered
incorrectly. -/
theorem score_never_decreases (s : Session) (qid : ℤ) (letter : String)
    (qd : Question) (hget : pyGet s.questions qid = some qd)
    (hq : qid < (s.questions.length : ℤ)) (hwrong : letter ≠ qd.correct) :
    (handleAnswer s qid letter).sess.score = s.score ∧
    (handleAnswer s qid letter).sess.correctly_answered =
      s.correctly_answered := by
  obtain ⟨-, -, -, -, hsc, hca⟩ :=
    handleAnswer_sess_fields s qid letter qd hget hq
  have hcond : ¬(letter = qd.correct ∧ qid ∉ s.correctly_answered) :=
    fun hc => hwrong hc.1
  rw [hsc, hca, if_neg hcond, if_neg hcond]
  exact ⟨rfl, rfl⟩

/-- Witness for `score_never_decreases`: a wrong answer to question 0 of
the concrete session. -/
theorem score_never_decreases_witness :
    (handleAnswer exSession 0 "B").sess.score = exSession.score ∧
    (handleAnswer exSession 0 "B").sess.correctly_answered =
      exSession.correctly_answered :=
  score_never_decreases exSession 0 "B" q1 (by decide) (by decide) (by decide)

/-- C7 (confirmed): an in-range answer for a question outside the
current batch is still scored by the usual rules and still produces the
feedback edit, but leaves `answeredInBatch` (and the batch itself)
unchanged, so it cannot affect batch-completion gating. -/
theorem stale_answers (s : Session) (qid : ℤ) (letter : String)
    (qd : Question) (h0 : 0 ≤ qid) (hget : pyGet s.questions qid = some qd)
    (hstale : qid ∉ s.current_batch_indices) :
    (handleAnswer s qid letter).sess.answered_in_batch =
      s.answered_in_batch ∧
    (handleAnswer s qid letter).sess.current_batch_indices =
      s.current_batch_indices ∧
    Directive.sendFeedback (decide (letter = qd.correct)) qid ∈
      (handleAnswer s qid letter).out ∧
    (handleAnswer s qid letter).sess.score =
      (if letter = qd.correct ∧ qid ∉ s.correctly_answered then s.score + 1
       else s.score) := by
  have hq : qid < (s.questions.length : ℤ) :=
    lt_length_of_pyGet_nonneg h0 hget
  obtain ⟨-, -, hcbi, haib, hsc, -⟩ :=
    handleAnswer_sess_fields s qid letter qd hget hq
  refine ⟨?_, hcbi, handleAnswer_feedback_mem s qid letter qd hget hq, hsc⟩
  rw [haib]
  unfold trackAnswer
  rw [if_neg hstale]

/-- Witness for `stale_answers`: answering not-yet-sent question 10 of the
twelve-question session while batch `{0..9}` is current. -/
theorem stale_answers_witness :
    (handleAnswer exSession12 10 "A").sess.answered_in_batch =
      exSession12.answered_in_batch ∧
    (handleAnswer exSession12 10 "A").sess.current_batch_indices =
      exSession12.current_batch_indices ∧
    Directive.sendFeedback (decide (("A" : String) = q1.correct)) 10 ∈
      (handleAnswer exSession12 10 "A").out ∧
    (handleAnswer exSession12 10 "A").sess.score =
      (if ("A" : String) = q1.correct ∧
          (10 : ℤ) ∉ exSession12.correctly_answered then
        exSession12.score + 1
       else exSession12.score) :=
  stale_answers exSession12 10 "A" q1 (by decide) (by decide) (by decide)

end QuizBot

namespace QuizBot

/-- C9 (counterexample): in the concrete two-question session the
index `-1` lies outside the session's question range `{0, 1}`, yet
`handle_answer` does not fail with the rejection — it scores the answer
(the letter `B` is correct for the aliased question 1) and edits
feedback normally. -/
theorem unknown_question_counterexample :
    exSession.questions.length = 2 ∧
    (handleAnswer exSession (-1) "B").out =
      [Directive.sendFeedback true (-1)] ∧
    (handleAnswer exSession (-1) "B").conv = ConvState.quizInProgress ∧
    (handleAnswer exSession (-1) "B").sess.score = exSession.score + 1 := by
  decide

/-- C9 (amended): `SubmitAnswer` fails with `UnknownQuestion` —
clearing the session outright, which on the fresh (empty) session is a
no-op, and ending the conversation — precisely when the session has no
questions or `questionIndex >= len(questions)`; an index in `[-n, -1]` is
not rejected. -/
theorem unknown_question_range (s : Session) (qid : ℤ) (letter : String) :
    (Directive.unknownQuestion ∈ (handleAnswer s qid letter).out ∧
        (handleAnswer s qid letter).sess = Session.empty ∧
        (handleAnswer s qid letter).conv = ConvState.ended)
      ↔ (s.questions = [] ∨ (s.questions.length : ℤ) ≤ qid) := by
  by_cases hg : s.questions = [] ∨ (s.questions.length : ℤ) ≤ qid
  · rw [handleAnswer_eq_of_invalid s qid letter hg]
    simp [hg]
  · push_neg at hg
    obtain ⟨hne, hq⟩ := hg
    apply iff_of_false
    · cases hpg : pyGet s.questions qid with
      | none =>
          rw [handleAnswer_eq_of_pyGet_none s qid letter hne hq hpg]
          simp
      | some qd =>
          rw [handleAnswer_eq_of_pyGet s qid letter qd hpg hq]
          dsimp only
          split <;> simp
    · exact not_or.mpr ⟨hne, not_le.mpr hq⟩

/-- Witness for `unknown_question_range` at an out-of-range index of the
concrete session. -/
theorem unknown_question_range_witness :
    (Directive.unknownQuestion ∈ (handleAnswer exSession 5 "A").out ∧
        (handleAnswer exSession 5 "A").sess = Session.empty ∧
        (handleAnswer exSession 5 "A").conv = ConvState.ended)
      ↔ (exSession.questions = [] ∨
          (exSession.questions.length : ℤ) ≤ 5) :=
  unknown_question_range exSession 5 "A"

/-- C10 (confirmed): a negative `questionIndex` in `[-n, -1]` passes
the out-of-bounds check (which only fires for `questionIndex >= n`), so
the answer is scored and given feedback against the question at position
`n + questionIndex`, and — since a batch never contains negative indices —
`answeredInBatch` is unchanged. -/
theorem negative_index_acceptance (s : Session) (qid : ℤ) (letter : String)
    (hneg : qid < 0) (hlo : -(s.questions.length : ℤ) ≤ qid)
    (hpos : ∀ i ∈ s.current_batch_indices, 0 ≤ i) :
    Directive.unknownQuestion ∉ (handleAnswer s qid letter).out ∧
    pyGet s.questions qid =
      s.questions.get? ((s.questions.length : ℤ) + qid).toNat ∧
    (handleAnswer s qid letter).sess.answered_in_batch =
      s.answered_in_batch ∧
    ∃ qd, pyGet s.questions qid = some qd ∧
      Directive.sendFeedback (decide (letter = qd.correct)) qid ∈
        (handleAnswer s qid letter).out ∧
      (handleAnswer s qid letter).sess.score =
        (if letter = qd.correct ∧ qid ∉ s.correctly_answered then
          s.score + 1
         else s.score) := by
  obtain ⟨qd, hget⟩ := pyGet_isSome_of_neg hneg hlo
  have hq : qid < (s.questions.length : ℤ) := by omega
  have hstale : qid ∉ s.current_batch_indices := fun hmem =>
    absurd (hpos qid hmem) (not_le.mpr hneg)
  obtain ⟨-, -, -, haib, hsc, -⟩ :=
    handleAnswer_sess_fields s qid letter qd hget hq
  refine ⟨?_, pyGet_of_neg hneg (by omega), ?_, qd, hget,
    handleAnswer_feedback_mem s qid letter qd hget hq, hsc⟩
  · rw [handleAnswer_eq_of_pyGet s qid letter qd hget hq]
    dsimp only
    split <;> simp
  · rw [haib]
    unfold trackAnswer
    rw [if_neg hstale]

/-- Witness for `negative_index_acceptance`: index `-1` of the concrete
two-question session aliases question 1. -/
theorem negative_index_acceptance_witness :
    Directive.unknownQuestion ∉ (handleAnswer exSession (-1) "B").out ∧
    pyGet exSession.questions (-1) =
      exSession.questions.get? ((exSession.questions.length : ℤ) + -1).toNat ∧
    (handleAnswer exSession (-1) "B").sess.answered_in_batch =
      exSession.answered_in_batch ∧
    ∃ qd, pyGet exSession.questions (-1) = some qd ∧
      Directive.sendFeedback (decide (("B" : String) = qd.correct)) (-1) ∈
        (handleAnswer exSession (-1) "B").out ∧
      (handleAnswer exSession (-1) "B").sess.score =
        (if ("B" : String) = qd.correct ∧
            (-1 : ℤ) ∉ exSession.correctly_answered then
          exSession.score + 1
         else exSession.score) :=
  negative_index_acceptance exSession (-1) "B" (by decide) (by decide)
    (by decide)

end QuizBot

namespace QuizBot

/-- Inductive invariant of a session: the cursor stays within the question
list, the score counts exactly the flagged-correct ids, every flagged id
is a valid Python index, and the answered set stays inside the current
batch. -/
def GoodSession (s : Session) : Prop :=
  s.index ≤ s.questions.length ∧
  s.score = s.correctly_answered.card ∧
  (∀ i ∈ s.correctly_answered,
    -(s.questions.length : ℤ) ≤ i ∧ i < (s.questions.length : ℤ)) ∧
  ∀ i ∈ s.answered_in_batch, i ∈ s.current_batch_indices

theorem goodSession_empty : GoodSession Session.empty := by
  refine ⟨Nat.le_refl 0, rfl, ?_, ?_⟩ <;> intro i hi <;>
    exact absurd hi (Finset.not_mem_empty i)

/-- A successful `pyGet` pins the id to Python's valid index range. -/
theorem pyGet_bounds {α : Type} {xs : List α} {i : ℤ} {a : α}
    (h : pyGet xs i = some a) :
    -(xs.length : ℤ) ≤ i ∧ i < (xs.length : ℤ) := by
  unfold pyGet at h
  split at h
  next h0 =>
    obtain ⟨hlt, -⟩ := List.get?_eq_some.mp h
    omega
  next h0 =>
    split at h
    next h1 =>
      obtain ⟨hlt, -⟩ := List.get?_eq_some.mp h
      omega
    next => exact absurd h (by simp)

theorem goodSession_sendNext {s : Session} (h : GoodSession s) :
    GoodSession (sendNextQuestionBatch s).sess := by
  obtain ⟨hidx, hsc, hbd, hsub⟩ := h
  unfold sendNextQuestionBatch
  dsimp only
  split
  · exact ⟨hidx, hsc, hbd, hsub⟩
  · split
    · exact goodSession_empty
    · refine ⟨min_le_right _ _, hsc, hbd, ?_⟩
      intro i hi
      rw [List.mem_toFinset, List.mem_map] at hi
      obtain ⟨n, hn, rfl⟩ := hi
      exact List.mem_map.mpr ⟨n, (List.mem_filter.mp hn).1, rfl⟩

theorem goodSession_startQuiz (subject : String) (qs : List Question) :
    GoodSession (startQuiz subject qs).sess := by
  unfold startQuiz
  split
  · exact goodSession_empty
  · exact goodSession_sendNext ⟨Nat.zero_le _, rfl,
      fun i hi => absurd hi (Finset.not_mem_empty i),
      fun i hi => absurd hi (Finset.not_mem_empty i)⟩

theorem goodSession_handleAnswer {s : Session} (h : GoodSession s)
    (qid : ℤ) (letter : String) :
    GoodSession (handleAnswer s qid letter).sess := by
  obtain ⟨hidx, hsc, hbd, hsub⟩ := h
  by_cases hg : s.questions = [] ∨ (s.questions.length : ℤ) ≤ qid
  · rw [handleAnswer_eq_of_invalid s qid letter hg]
    exact goodSession_empty
  · push_neg at hg
    obtain ⟨hne, hq⟩ := hg
    cases hpg : pyGet s.questions qid with
    | none =>
        rw [handleAnswer_eq_of_pyGet_none s qid letter hne hq hpg]
        exact ⟨hidx, hsc, hbd, trackAnswer_subset s qid hsub⟩
    | some qd =>
        obtain ⟨hqs, hix, hcbi, haib, hscore, hcorr⟩ :=
          handleAnswer_sess_fields s qid letter qd hpg hq
        obtain ⟨hbd1, hbd2⟩ := pyGet_bounds hpg
        refine ⟨?_, ?_, ?_, ?_⟩
        · rw [hix, hqs]
          exact hidx
        · rw [hscore, hcorr]
          by_cases hc : letter = qd.correct ∧ qid ∉ s.correctly_answered
          · rw [if_pos hc, if_pos hc,
              Finset.card_insert_of_not_mem hc.2, hsc]
          · rw [if_neg hc, if_neg hc]
            exact hsc
        · rw [hqs, hcorr]
          by_cases hc : letter = qd.correct ∧ qid ∉ s.correctly_answered
          · rw [if_pos hc]
            intro i hi
            rcases Finset.mem_insert.mp hi with rfl | hi'
            · exact ⟨hbd1, hbd2⟩
            · exact hbd i hi'
          · rw [if_neg hc]
            exact hbd
        · rw [haib, hcbi]
          exact trackAnswer_subset s qid hsub

theorem goodSession_handleNext {s : Session} (h : GoodSession s) :
    GoodSession (handleNext s).sess := by
  unfold handleNext
  split
  · exact goodSession_sendNext h
  · exact h

theorem goodSession_step {m : MState} (h : GoodSession m.sess) (e : Event) :
    GoodSession (step m e).1.sess := by
  rcases m with ⟨conv, sess⟩
  cases conv with
  | selectingSubject =>
      cases e with
      | selectSubject subject qs => exact goodSession_startQuiz subject qs
      | submitAnswer qid letter => exact h
      | requestNext => exact h
  | quizInProgress =>
      cases e with
      | selectSubject subject qs => exact h
      | submitAnswer qid letter => exact goodSession_handleAnswer h qid letter
      | requestNext => exact goodSession_handleNext h
  | ended => cases e <;> exact h

theorem goodSession_runEvents (es : List Event) :
    ∀ m : MState, GoodSession m.sess → GoodSession (runEvents m es).sess := by
  induction es with
  | nil => exact fun m h => h
  | cons e es ih => exact fun m h => ih _ (goodSession_step h e)

end QuizBot

namespace QuizBot

/-- Refinement used for the score bound: every flagged-correct id is
nonnegative (true as long as only nonnegative question ids are
submitted). -/
def NonnegScored (s : Session) : Prop :=
  ∀ i ∈ s.correctly_answered, 0 ≤ i

/-- An event whose question id (if any) is nonnegative — the only ids the
bot itself ever places on an answer button. -/
def Event.nonnegIdx : Event → Prop
  | .submitAnswer qid _ => 0 ≤ qid
  | _ => True

instance : DecidablePred Event.nonnegIdx := fun e =>
  match e with
  | .selectSubject _ _ => isTrue trivial
  | .submitAnswer qid _ => inferInstanceAs (Decidable (0 ≤ qid))
  | .requestNext => isTrue trivial

/-- Sending a batch never touches the `correct_{qid}` flags
(except by clearing everything on its dead empty-list branch). -/
theorem sendNext_correctSet (s : Session) :
    (sendNextQuestionBatch s).sess.correctly_answered =
        s.correctly_answered ∨
    (sendNextQuestionBatch s).sess.correctly_answered = ∅ := by
  unfold sendNextQuestionBatch
  dsimp only
  split
  · exact Or.inl rfl
  · split
    · exact Or.inr rfl
    · exact Or.inl rfl

theorem nonnegScored_sendNext {s : Session} (h : NonnegScored s) :
    NonnegScored (sendNextQuestionBatch s).sess := by
  rcases sendNext_correctSet s with heq | heq <;>
    intro i hi <;> rw [heq] at hi
  · exact h i hi
  · exact absurd hi (Finset.not_mem_empty i)

theorem nonnegScored_startQuiz (subject : String) (qs : List Question) :
    NonnegScored (startQuiz subject qs).sess := by
  unfold startQuiz
  split
  · exact fun i hi => absurd hi (Finset.not_mem_empty i)
  · exact nonnegScored_sendNext
      (fun i hi => absurd hi (Finset.not_mem_empty i))

theorem nonnegScored_handleAnswer {s : Session} (h : NonnegScored s)
    (qid : ℤ) (letter : String) (hq0 : 0 ≤ qid) :
    NonnegScored (handleAnswer s qid letter).sess := by
  by_cases hg : s.questions = [] ∨ (s.questions.length : ℤ) ≤ qid
  · rw [handleAnswer_eq_of_invalid s qid letter hg]
    exact fun i hi => absurd hi (Finset.not_mem_empty i)
  · push_neg at hg
    obtain ⟨hne, hqlt⟩ := hg
    cases hpg : pyGet s.questions qid with
    | none =>
        rw [handleAnswer_eq_of_pyGet_none s qid letter hne hqlt hpg]
        exact h
    | some qd =>
        obtain ⟨-, -, -, -, -, hcorr⟩ :=
          handleAnswer_sess_fields s qid letter qd hpg hqlt
        intro i hi
        rw [hcorr] at hi
        by_cases hc : letter = qd.correct ∧ qid ∉ s.correctly_answered
        · rw [if_pos hc] at hi
          rcases Finset.mem_insert.mp hi with rfl | hi'
          · exact hq0
          · exact h i hi'
        · rw [if_neg hc] at hi
          exact h i hi

theorem nonnegScored_step {m : MState} (h : NonnegScored m.sess) {e : Event}
    (he : e.nonnegIdx) : NonnegScored (step m e).1.sess := by
  rcases m with ⟨conv, sess⟩
  cases conv with
  | selectingSubject =>
      cases e with
      | selectSubject subject qs => exact nonnegScored_startQuiz subject qs
      | submitAnswer qid letter => exact h
      | requestNext => exact h
  | quizInProgress =>
      cases e with
      | selectSubject subject qs => exact h
      | submitAnswer qid letter => exact nonnegScored_handleAnswer h qid letter he
      | requestNext =>
          show NonnegScored (handleNext sess).sess
          unfold handleNext
          split
          · exact nonnegScored_sendNext h
          · exact h
  | ended => cases e <;> exact h

theorem nonnegScored_runEvents (es : List Event)
    (hes : ∀ e ∈ es, e.nonnegIdx) :
    ∀ m : MState, NonnegScored m.sess →
      NonnegScored (runEvents m es).sess := by
  induction es with
  | nil => exact fun m h => h
  | cons e es ih =>
      intro m h
      exact ih (fun e' he' => hes e' (List.mem_cons_of_mem e he'))
        _ (nonnegScored_step h (hes e (List.mem_cons_self e es)))

/-- With nonnegative flags the score is bounded by the question count. -/
theorem score_le_of_good {s : Session} (hg : GoodSession s)
    (hn : NonnegScored s) : s.score ≤ s.questions.length := by
  obtain ⟨-, hsc, hbd, -⟩ := hg
  have hss : s.correctly_answered ⊆
      Finset.Ico (0 : ℤ) (s.questions.length : ℤ) := by
    intro i hi
    rw [Finset.mem_Ico]
    exact ⟨hn i hi, (hbd i hi).2⟩
  have hcard := Finset.card_le_card hss
  rw [Int.card_Ico] at hcard
  omega

end QuizBot

namespace QuizBot

/-- Event trace that over-scores a one-question quiz: the same question is
scored twice, once through Python index `-1` and once through index `0`,
because the two aliases carry distinct `correct_{qid}` flags. -/
def overScoreTrace : List Event :=
  [.selectSubject "Math" [q1], .submitAnswer (-1) "A", .submitAnswer 0 "A"]

/-- C8 (counterexample): a session reachable by three events — select a
one-question subject, answer through alias `-1`, then through index `0` —
ends with `score = 2 > 1 = len(questions)`, so the claimed invariant
`0 ≤ score ≤ len(questions)` does not hold for all reachable sessions. -/
theorem session_invariants_counterexample :
    (runEvents initState overScoreTrace).sess.questions.length = 1 ∧
    (runEvents initState overScoreTrace).sess.score = 2 := by
  decide

/-- C8 (amended): for every session reachable by any event sequence,
`0 ≤ cursor ≤ len(questions)` and `answeredInBatch ⊆ currentBatch`; and
`0 ≤ score ≤ len(questions)` additionally holds whenever every submitted
question id is nonnegative (negative Python aliases can double-score, see
the counterexample). -/
theorem session_invariants (es : List Event) :
    ((runEvents initState es).sess.index ≤
        (runEvents initState es).sess.questions.length ∧
      ∀ i ∈ (runEvents initState es).sess.answered_in_batch,
        i ∈ (runEvents initState es).sess.current_batch_indices) ∧
    ((∀ e ∈ es, e.nonnegIdx) →
      (runEvents initState es).sess.score ≤
        (runEvents initState es).sess.questions.length) := by
  have hg := goodSession_runEvents es initState goodSession_empty
  refine ⟨⟨hg.1, hg.2.2.2⟩, fun hes => ?_⟩
  exact score_le_of_good hg (nonnegScored_runEvents es hes initState
    (fun i hi => absurd hi (Finset.not_mem_empty i)))

/-- Event trace answering a two-question quiz with only bot-made ids. -/
def demoTrace : List Event :=
  [.selectSubject "Math" [q1, q2], .submitAnswer 0 "A", .submitAnswer 1 "A"]

/-- Witness for `session_invariants` on a concrete nonnegative-id trace. -/
theorem session_invariants_witness :
    ((runEvents initState demoTrace).sess.index ≤
        (runEvents initState demoTrace).sess.questions.length ∧
      ∀ i ∈ (runEvents initState demoTrace).sess.answered_in_batch,
        i ∈ (runEvents initState demoTrace).sess.current_batch_indices) ∧
    (runEvents initState demoTrace).sess.score ≤
      (runEvents initState demoTrace).sess.questions.length :=
  ⟨(session_invariants demoTrace).1,
    (session_invariants demoTrace).2 (by decide)⟩

end QuizBot

namespace QuizBot

/-- C4 (counterexample): two non-empty subjects with 1 and 100
questions give `T = 101`, `target = min(50, 101) = 50`, but the
proportional allocation draws `max(1, round(50/101)) = 1` plus
`min(round(50·100/101), 100) = 50`, i.e. 51 questions — not
`min(target, T) = 50`. -/
theorem random_selection_counterexample :
    randomMixLength [1, 100] = 51 ∧
    targetTotal ([1, 100] : List ℕ).sum = 50 := by
  decide

/-- Per-subject draw never exceeds the subject's size. -/
theorem drawnFromSubject_le (sizes : List ℕ) (n : ℕ) :
    drawnFromSubject sizes n ≤ n := by
  unfold drawnFromSubject
  split
  · omega
  · exact min_le_right _ _

/-- C4 (amended): for the "random" choice the number of questions
drawn from any single subject never exceeds that subject's available
count, and hence the produced sequence length never exceeds the total `T`
available — but it is `Σ min(max(1, round(target·nᵢ/T)), nᵢ)` over the
non-empty subjects, which can differ from `min(target, T)`. -/
theorem random_selection_bound (sizes : List ℕ) :
    (∀ n ∈ sizes, drawnFromSubject sizes n ≤ n) ∧
    randomMixLength sizes ≤ sizes.sum := by
  refine ⟨fun n _ => drawnFromSubject_le sizes n, ?_⟩
  unfold randomMixLength
  calc (sizes.map (drawnFromSubject sizes)).sum
      ≤ (sizes.map id).sum :=
        List.sum_le_sum fun n _ => drawnFromSubject_le sizes n
    _ = sizes.sum := by rw [List.map_id]

/-- Witness for `random_selection_bound` at the counterexample's bank. -/
theorem random_selection_bound_witness :
    (∀ n ∈ ([1, 100] : List ℕ), drawnFromSubject [1, 100] n ≤ n) ∧
    randomMixLength [1, 100] ≤ ([1, 100] : List ℕ).sum :=
  random_selection_bound [1, 100]

end QuizBot
